import Mathlib

/-!
Shallow embedding of the hot-module-reload core from
`src/reloadable/reloadable.py` and of the serving entry point from
`server.py`, together with theorems settling the specification claims.

Modelling conventions:
* `sys.modules` is embedded as a finite partial map `ModName → Option Nat`;
  the `Nat` is the generation of the code that was executed when the module
  was (re)loaded, so "re-executing a unit" is visible as a change of that
  generation (`disk : ModName → Nat` gives the generation currently on disk).
* Python exceptions become `Except` values or explicit outcome constructors;
  a `try/except` in the source becomes a `match` on that value.
* The external Closure Provider (`tach`'s `DependentMap.get_closure`) is an
  opaque collaborator: each reload cycle receives its outcome for that cycle
  as a `ClosureOutcome` value (normal result, `ValueError`, or any other
  exception), exactly the three cases the source distinguishes.
* A Python `set` is embedded as a duplicate-free list; where the source
  iterates a set (whose iteration order CPython does not specify), the
  embedding takes the enumeration as an explicit argument.
-/

abbrev ModName := String

abbrev FPath := String

/-- `sys.modules`, as a partial map from module name to the generation of the
code executed for it. -/
abbrev Modules := ModName → Option Nat

/-- Python's `str.removesuffix`, written on the character list so that the
kernel can evaluate it. -/
def removeSuffix (s suf : String) : String :=
  if suf.data.length ≤ s.data.length ∧
      s.data.drop (s.data.length - suf.data.length) = suf.data then
    ⟨s.data.take (s.data.length - suf.data.length)⟩
  else s

def slashToDot (c : Char) : Char := if c = '/' then '.' else c

/-- `str.replace("/", ".")`: for a one-character pattern and replacement this
is a character map. -/
def replaceSlashes (s : String) : String := ⟨s.data.map slashToDot⟩

/-- Python's `str.startswith("_")`. -/
def underscored (s : String) : Bool :=
  match s.data with
  | c :: _ => c = '_'
  | [] => false

/-- `filepath_to_module_name` (reloadable.py lines 94-98): drop the `.py`
extension (`with_suffix("")`, specialised to the `.py` inputs the watcher
filter admits), turn `/` into `.`, drop a trailing `.__init__`. -/
def filepath_to_module_name (p : FPath) : ModName :=
  removeSuffix (replaceSlashes (removeSuffix p ".py")) ".__init__"

/-! ### ImportTracker (reloadable.py lines 65-91) -/

/-- Association-list lookup, embedding `dict.__getitem__` / `dict.get` on
`original_import_map`. -/
def lookupPos : List (ModName × Nat) → ModName → Option Nat
  | [], _ => none
  | (k, v) :: rest, m => if k = m then some v else lookupPos rest m

structure ImportTracker where
  original_import_order : List ModName
  original_import_map : List (ModName × Nat)

/-- One interception of `__import__` inside `track_imports` (lines 73-81):
non-underscore module names not yet in the map are appended to the order list
and recorded in the map at the pre-append length of the order list. -/
def ImportTracker.record (t : ImportTracker) (name : ModName) : ImportTracker :=
  if underscored name then t
  else if (lookupPos t.original_import_map name).isSome then t
  else
    { original_import_order := t.original_import_order ++ [name]
      original_import_map :=
        t.original_import_map ++ [(name, t.original_import_order.length)] }

/-- `get_position` (lines 89-91): the recorded index, or the sentinel
`float("inf")` — embedded as `⊤` in `WithTop Nat` — for unknown modules. -/
def ImportTracker.get_position (t : ImportTracker) (m : ModName) : WithTop Nat :=
  match lookupPos t.original_import_map m with
  | some i => (i : WithTop Nat)
  | none => ⊤

/-- The startup bootstrap of `PyModuleReloader.__init__` (lines 122-128): the
tracker starts with `original_import_order = [root_module_path]` and an empty
map, then records each module first-imported while the root module is
executed (`imports` is that import sequence, in encounter order). -/
def bootstrapTracker (root : ModName) (imports : List ModName) : ImportTracker :=
  imports.foldl ImportTracker.record
    { original_import_order := [root], original_import_map := [] }

/-! ### Eviction and re-execution (reloadable.py lines 159-180) -/

/-- `del sys.modules[m]`: raises `KeyError` when the key is absent. -/
def delModule (st : Modules) (m : ModName) : Except Unit Modules :=
  match st m with
  | none => .error ()
  | some _ => .ok (fun n => if n = m then none else st n)

/-- The `try: del sys.modules[...] except KeyError: pass` body of the eviction
loop (lines 167-171) for a single module name. -/
def evictOne (st : Modules) (m : ModName) : Modules :=
  match delModule st m with
  | .ok st' => st'
  | .error _ => st

/-- The eviction loop over the affected files (lines 167-171). -/
def evictAll (st : Modules) (files : List FPath) : Modules :=
  files.foldl (fun s p => evictOne s (filepath_to_module_name p)) st

/-- `importlib.import_module` while reloading: a module already present in
`sys.modules` is returned as-is (no re-execution); otherwise its top level is
executed, which either raises (`fails m = true`) or installs the module at the
current on-disk generation. -/
def importModule (disk : ModName → Nat) (fails : ModName → Bool)
    (st : Modules) (m : ModName) : Except ModName Modules :=
  match st m with
  | some _ => .ok st
  | none =>
      if fails m then .error m
      else .ok (fun n => if n = m then some (disk m) else st n)

/-- `importlib.import_module` in the failure-free case (used to state what a
successful cycle does to `sys.modules`). -/
def importOk (disk : ModName → Nat) (st : Modules) (m : ModName) : Modules :=
  match st m with
  | some _ => st
  | none => fun n => if n = m then some (disk m) else st n

/-- The re-execution loop (lines 179-180): import each unit of `order` in
turn; the first raising unit aborts the loop, the exception propagating with
the mutations already made left in place.  Returns the final `sys.modules`,
the list of units whose import call completed, and the failing unit if any. -/
def reloadUnits (disk : ModName → Nat) (fails : ModName → Bool) :
    Modules → List FPath → Modules × List ModName × Option ModName
  | st, [] => (st, [], none)
  | st, p :: rest =>
      let m := filepath_to_module_name p
      match importModule disk fails st m with
      | .error e => (st, [], some e)
      | .ok st' =>
          let r := reloadUnits disk fails st' rest
          (r.1, m :: r.2.1, r.2.2)

/-- The sort of lines 173-178: Python's `sorted` (a stable sort) applied to an
enumeration of the affected set, keyed by `tracker.get_position` alone. -/
def reload_order (t : ImportTracker) (affected : List FPath) : List FPath :=
  List.insertionSort
    (fun a b =>
      t.get_position (filepath_to_module_name a) ≤
        t.get_position (filepath_to_module_name b))
    affected

/-- Outcome of one call of the Closure Provider (`dep_map.get_closure`):
a normal result, a `ValueError`, or any other exception. -/
inductive ClosureOutcome
  | ok (units : List FPath)
  | valueError
  | otherError

/-- Lines 153-157: `set(map(Path, get_closure(relpaths)))` with the
`except ValueError: affected_files = set(relpaths)` fallback; any other
exception propagates. -/
def computeAffected (relpaths : List FPath) : ClosureOutcome → Except Unit (List FPath)
  | .ok units => .ok units.dedup
  | .valueError => .ok relpaths.dedup
  | .otherError => .error ()

/-- Result of one `handle_batch` call, as seen by its caller: either the
closure computation raised before any mutation, or some unit's re-import
raised after the mutations made so far, or the cycle completed. -/
inductive BatchOutcome
  | closureFailed
  | unitFailed (modules : Modules) (executed : List ModName) (failed : ModName)
  | done (modules : Modules) (executed : List ModName)

/-- The `sys.modules` state after the cycle (on `closureFailed` nothing was
mutated yet, so it is the pre-cycle state). -/
def BatchOutcome.modulesAfter (st : Modules) : BatchOutcome → Modules
  | .closureFailed => st
  | .unitFailed st' _ _ => st'
  | .done st' _ => st'

/-- The units whose re-import completed during the cycle. -/
def BatchOutcome.executedUnits : BatchOutcome → List ModName
  | .closureFailed => []
  | .unitFailed _ ex _ => ex
  | .done _ ex => ex

/-- The unit whose re-import raised, if any. -/
def BatchOutcome.failedUnit : BatchOutcome → Option ModName
  | .closureFailed => none
  | .unitFailed _ _ f => some f
  | .done _ _ => none

/-- `PyModuleReloader.handle_batch` (lines 143-180), minus the operations
that do not touch the loaded-module state (console output and the
`dep_map.update_files` mutation of the external provider's own graph).  The
whole body runs under the reload lock; `relpaths` is the batch already made
relative to the project root, `o` is this cycle's Closure Provider outcome. -/
def handle_batch (disk : ModName → Nat) (fails : ModName → Bool)
    (t : ImportTracker) (st : Modules) (relpaths : List FPath)
    (o : ClosureOutcome) : BatchOutcome :=
  match computeAffected relpaths o with
  | .error _ => .closureFailed
  | .ok affected =>
      if affected.isEmpty then .done st []
      else
        let st1 := evictAll st affected
        let r := reloadUnits disk fails st1 (reload_order t affected)
        match r.2.2 with
        | some f => .unitFailed r.1 r.2.1 f
        | none => .done r.1 r.2.1

/-! ### Serving façade (`ReloadableWSGI`, lines 183-219, and `server.py`) -/

/-- `ReloadableWSGI._get_app` (lines 213-215): `importlib.import_module` on the
root module — returning the cached entry when loaded, executing it at the
on-disk generation otherwise — then `getattr` for the handler, which the
embedding identifies with the module's generation. -/
def getApp (disk : ModName → Nat) (st : Modules) (root : ModName) :
    Modules × Nat :=
  match st root with
  | some v => (st, v)
  | none => (fun n => if n = root then some (disk root) else st n, disk root)

structure Request where
  path : String

/-- The normal return value of a route handler in `server.py`: the `status`
and `response` fields of the dict it builds. -/
structure RouteOk where
  status : String
  response : String

/-- An exception message, for the `except Exception` arm of
`WSGIApp.__call__`. -/
abbrev PyErr := String

/-- The four route handlers of `WSGIApp` (server.py lines 23-64).  Their
bodies import and call external example modules, so each is embedded as a
fallible function. -/
structure WSGIHandlers where
  handle_root : Request → Except PyErr RouteOk
  handle_lazy_import : Request → Except PyErr RouteOk
  handle_multiple_modules : Request → Except PyErr RouteOk
  list_loaded_modules : Request → Except PyErr RouteOk

/-- `self.routes.get(path, self.handle_root)` over the route table built in
`WSGIApp.__init__` (server.py lines 16-21, 68). -/
def routeOf (h : WSGIHandlers) (path : String) : Request → Except PyErr RouteOk :=
  if path = "/" then h.handle_root
  else if path = "/lazy" then h.handle_lazy_import
  else if path = "/multi" then h.handle_multiple_modules
  else if path = "/modules" then h.list_loaded_modules
  else h.handle_root

structure Response where
  status : String
  body : String
deriving DecidableEq

/-- The `except Exception` arm of `WSGIApp.__call__` (server.py lines 83-95):
a structured 500 response carrying the exception. -/
def errorResponse (e : PyErr) : Response :=
  { status := "500 Internal Server Error", body := e }

/-- `WSGIApp.__call__` (server.py lines 66-95): dispatch to the route handler
and render its result, converting any exception it raises into the structured
500 response instead of propagating it. -/
def wsgiCall (h : WSGIHandlers) (req : Request) : Response :=
  match routeOf h req.path req with
  | .ok r => { status := r.status, body := r.response }
  | .error e => errorResponse e

inductive LockEv
  | acquire
  | release
deriving DecidableEq

/-- The `with self.lock:` statement around a body that may raise: the lock is
released on both exit paths and the body's outcome is returned or re-raised
unchanged. -/
def withLock (body : Except PyErr Response) : List LockEv × Except PyErr Response :=
  match body with
  | .ok r => ([LockEv.acquire, LockEv.release], .ok r)
  | .error e => ([LockEv.acquire, LockEv.release], .error e)

/-- `ReloadableWSGI.__call__` (lines 217-219): under the lock, resolve the
entry point fresh from the current `sys.modules` via `_get_app` and delegate
to it.  `appOf` maps a loaded generation of the root module to the behavior of
the handler object `getattr` finds on it.  Returns the lock-event trace, the
`sys.modules` state after the call, and the response. -/
def reloadableCall (disk : ModName → Nat) (appOf : Nat → WSGIHandlers)
    (st : Modules) (root : ModName) (req : Request) :
    List LockEv × Modules × Response :=
  let res := getApp disk st root
  ([LockEv.acquire, LockEv.release], res.1, wsgiCall (appOf res.2) req)

/-! ### BatchDebounceTimer (reloadable.py lines 36-62) -/

/-- `set.add`: append when not already present. -/
def addPath (batch : List FPath) (p : FPath) : List FPath :=
  if p ∈ batch then batch else batch ++ [p]

/-- `BatchDebounceTimer`, with the `threading.Timer` field embedded as the
absolute time at which the currently armed timer will fire (`none` when no
timer is armed) and the callback embedded as a log of the batches handed to
it. -/
structure BatchDebounceTimer where
  timeout : Nat
  batch : List FPath
  deadline : Option Nat
  flushed : List (List FPath)

/-- The timer as constructed (lines 39-43): empty batch, no armed timer. -/
def initTimer (timeout : Nat) : BatchDebounceTimer :=
  { timeout := timeout, batch := [], deadline := none, flushed := [] }

/-- `add_to_batch` (lines 45-52) called at absolute time `now`: add the path
to the batch, cancel any armed timer and arm a fresh one `timeout` from now. -/
def add_to_batch (d : BatchDebounceTimer) (now : Nat) (p : FPath) :
    BatchDebounceTimer :=
  { d with batch := addPath d.batch p, deadline := some (now + d.timeout) }

/-- `process_batch` (lines 54-62) as the armed timer's action at time `now`:
if the deadline has been reached, fire — hand a non-empty batch to the
callback and clear it (an empty batch triggers nothing); an unexpired or
cancelled timer does nothing. -/
def fire_due (d : BatchDebounceTimer) (now : Nat) : BatchDebounceTimer :=
  match d.deadline with
  | none => d
  | some dl =>
      if dl ≤ now then
        if d.batch.isEmpty then { d with deadline := none }
        else { d with flushed := d.flushed ++ [d.batch], batch := [], deadline := none }
      else d

/-- Run the debouncer over timestamped `notify` calls, sequentially: before
each notification the armed timer fires if its deadline already passed. -/
def runNotifies (d : BatchDebounceTimer) : List (Nat × FPath) → BatchDebounceTimer
  | [] => d
  | (now, p) :: rest => runNotifies (add_to_batch (fire_due d now) now p) rest

/-- Let the last armed timer fire. -/
def settleTimer (d : BatchDebounceTimer) : BatchDebounceTimer :=
  match d.deadline with
  | some dl => fire_due d dl
  | none => d

/-! #### The notify / timer-fire race

`BatchDebounceTimer` takes no lock of its own, so on CPython the watchdog
thread's `add_to_batch` can interleave with the timer thread's
`process_batch`.  `process_batch` is not atomic: it first hands `self.batch`
to the callback (which snapshots it and then reloads modules, a long
operation) and only afterwards runs `self.batch.clear()`.  The race is
embedded by splitting `process_batch` into those two steps. -/

inductive RaceEv
  | notify (p : FPath)
  | fireBegin
  | fireEnd

structure RaceState where
  batch : List FPath
  delivered : List (List FPath)
deriving DecidableEq

/-- One atomic step of the interleaved execution: `notify p` is
`self.batch.add(path)` on the watchdog thread; `fireBegin` is
`process_batch` entering its `if self.batch:` body and handing the batch to
the callback; `fireEnd` is the `self.batch.clear()` that follows the
callback's return. -/
def raceStep (s : RaceState) : RaceEv → RaceState
  | .notify p => { s with batch := addPath s.batch p }
  | .fireBegin =>
      if s.batch.isEmpty then s
      else { s with delivered := s.delivered ++ [s.batch] }
  | .fireEnd => { s with batch := [] }

def raceRun (s : RaceState) (evs : List RaceEv) : RaceState :=
  evs.foldl raceStep s

/-! ### The reload lock (reloadable.py line 144, lines 217-219)

`PyModuleReloader.handle_batch` and `ReloadableWSGI.__call__` take the same
`threading.Lock` (created once in `ReloadableWSGI.__init__` and passed to the
reloader as `reload_lock`).  The interleaving of the reload cycle with one
concurrent request is embedded as a two-thread transition system: the
reloader thread acquires the lock, performs the cycle's `sys.modules`
mutations one at a time, and releases; the requester thread acquires the
lock, reads `sys.modules` (`_get_app` plus delegation), and releases.
Acquiring blocks while the lock is held, which the step relation expresses by
the `lock = none` premise of the acquire steps. -/

inductive Tid
  | reloader
  | requester
deriving DecidableEq

structure CState where
  lock : Option Tid
  mem : Modules
  rpc : Nat
  qpc : Nat
  observed : Option Modules

def initC (mem0 : Modules) : CState :=
  { lock := none, mem := mem0, rpc := 0, qpc := 0, observed := none }

/-- Apply the first `n` of the cycle's mutation steps. -/
def applyUpto (muts : List (Modules → Modules)) (n : Nat) (m : Modules) : Modules :=
  (muts.take n).foldl (fun s f => f s) m

/-- One interleaved step.  Reloader program counter: `0` before
`with self.reload_lock:`, `i + 1` after performing `i` of the cycle's
mutations (holding the lock), `muts.length + 2` after releasing.  Requester
program counter: `0` before `with self.lock:`, `1` holding the lock before
reading `sys.modules`, `2` after reading (response computed), `3` after
releasing. -/
inductive CStep (muts : List (Modules → Modules)) : CState → CState → Prop
  | rAcquire (s : CState) (h : s.lock = none) (hp : s.rpc = 0) :
      CStep muts s { s with lock := some Tid.reloader, rpc := 1 }
  | rMut (s : CState) (i : Nat) (h : i < muts.length) (hp : s.rpc = i + 1) :
      CStep muts s { s with mem := (muts.get ⟨i, h⟩) s.mem, rpc := i + 2 }
  | rRelease (s : CState) (hp : s.rpc = muts.length + 1) :
      CStep muts s { s with lock := none, rpc := muts.length + 2 }
  | qAcquire (s : CState) (h : s.lock = none) (hp : s.qpc = 0) :
      CStep muts s { s with lock := some Tid.requester, qpc := 1 }
  | qObserve (s : CState) (hp : s.qpc = 1) :
      CStep muts s { s with observed := some s.mem, qpc := 2 }
  | qRelease (s : CState) (hp : s.qpc = 2) :
      CStep muts s { s with lock := none, qpc := 3 }

/-- States reachable from the initial state by interleaved steps. -/
abbrev CReach (muts : List (Modules → Modules)) (mem0 : Modules) (s : CState) : Prop :=
  Relation.ReflTransGen (CStep muts) (initC mem0) s

/-- The reloader is inside its critical section (holding the lock, between
the acquire and the release: the Resolving-through-Reexecuting span). -/
def inReloadCritical (muts : List (Modules → Modules)) (s : CState) : Prop :=
  1 ≤ s.rpc ∧ s.rpc ≤ muts.length + 1

/-- The requester is inside its critical section (holding the lock, using the
entry point). -/
def inRequestCritical (s : CState) : Prop :=
  1 ≤ s.qpc ∧ s.qpc ≤ 2

/-- The `sys.modules` mutation steps of one successful reload cycle on the
invalidation set `affected`: the evictions of lines 167-171 in set-enumeration
order, then the re-imports of lines 179-180 in `reload_order`. -/
def cycleSteps (disk : ModName → Nat) (t : ImportTracker)
    (affected : List FPath) : List (Modules → Modules) :=
  affected.map (fun p st => evictOne st (filepath_to_module_name p)) ++
    (reload_order t affected).map
      (fun p st => importOk disk st (filepath_to_module_name p))

/-- The inductive invariant of the interleaved system: program counters stay
in range, a thread inside its critical section holds the lock, the memory is
always a prefix of the cycle's mutations applied to the initial state, and
any observation made by the requester saw either the pre-reload or the
fully-reloaded memory. -/
def CInv (muts : List (Modules → Modules)) (mem0 : Modules) (s : CState) : Prop :=
  s.rpc ≤ muts.length + 2 ∧
  s.qpc ≤ 3 ∧
  ((1 ≤ s.rpc ∧ s.rpc ≤ muts.length + 1) → s.lock = some Tid.reloader) ∧
  ((1 ≤ s.qpc ∧ s.qpc ≤ 2) → s.lock = some Tid.requester) ∧
  s.mem = applyUpto muts (min (s.rpc - 1) muts.length) mem0 ∧
  (s.observed = none ∨ s.observed = some mem0 ∨
    s.observed = some (applyUpto muts muts.length mem0))


/-! ### A spec-worded variant of the re-execution order, and concrete fixtures -/

/-- Lexicographic strictly-less on character lists (a total order on
identifiers, used only to give the spec's tie-break a concrete meaning). -/
def strLtL : List Char → List Char → Bool
  | [], [] => false
  | [], _ :: _ => true
  | _ :: _, [] => false
  | a :: as, b :: bs => if a = b then strLtL as bs else decide (a < b)

/-- Modelled from the spec: §4.4 step 5 words the re-execution order as "sort
the invalidation set by `position()` ascending (ties broken by identifier for
determinism)" — position first, identifier as the tie-break.  This definition
follows the spec's words and is compared against the source's
`reload_order`. -/
def spec_reload_order (t : ImportTracker) (affected : List FPath) : List FPath :=
  List.insertionSort
    (fun a b =>
      t.get_position (filepath_to_module_name a) <
          t.get_position (filepath_to_module_name b) ∨
        (t.get_position (filepath_to_module_name a) =
            t.get_position (filepath_to_module_name b) ∧
          (a = b ∨ strLtL a.data b.data = true)))
    affected

/-- A `sys.modules` with only the root module `app` loaded (generation 0). -/
def stApp : Modules := fun n => if n = "app" then some 0 else none

/-- The tracker after a bootstrap that recorded no imports. -/
def trackerNone : ImportTracker := bootstrapTracker "app" []

/-- The tracker after a bootstrap that recorded `b1` then `b2`. -/
def trackerB : ImportTracker := bootstrapTracker "app" ["b1", "b2"]

/-- A `sys.modules` with `b1` and `b2` loaded (generation 0). -/
def stB : Modules :=
  fun n => if n = "b1" then some 0 else if n = "b2" then some 0 else none

/-- An on-disk state one generation ahead everywhere. -/
def oneDisk : ModName → Nat := fun _ => 1

/-- An import behavior under which re-executing `b1` raises. -/
def failB1 : ModName → Bool := fun m => decide (m = "b1")

/-- Handlers whose root route raises, for exercising the error path of
`WSGIApp.__call__`. -/
def raisingHandlers : WSGIHandlers :=
  { handle_root := fun _ => .error "boom"
    handle_lazy_import := fun _ => .ok { status := "200 OK", response := "lazy" }
    handle_multiple_modules := fun _ => .ok { status := "200 OK", response := "multi" }
    list_loaded_modules := fun _ => .ok { status := "200 OK", response := "mods" } }

/-! ## Helper lemmas -/

lemma evictOne_self (st : Modules) (m : ModName) : evictOne st m m = none := by
  unfold evictOne delModule
  cases h : st m with
  | none => simpa using h
  | some v => simp

lemma evictOne_none (st : Modules) (m n : ModName) (h : st n = none) :
    evictOne st m n = none := by
  unfold evictOne delModule
  cases hm : st m with
  | none => simpa using h
  | some v => simp [h]

lemma evictOne_other (st : Modules) (m n : ModName) (h : n ≠ m) :
    evictOne st m n = st n := by
  unfold evictOne delModule
  cases hm : st m with
  | none => simp
  | some v => simp [h]

lemma evictAll_none (files : List FPath) (st : Modules) (n : ModName)
    (h : st n = none) : evictAll st files n = none := by
  induction files generalizing st with
  | nil => exact h
  | cons q rest ih => exact ih _ (evictOne_none _ _ _ h)

lemma evictAll_mem (files : List FPath) (st : Modules) (p : FPath)
    (hp : p ∈ files) :
    evictAll st files (filepath_to_module_name p) = none := by
  induction files generalizing st with
  | nil => cases hp
  | cons q rest ih =>
      rcases List.mem_cons.mp hp with h | h
      · subst h
        exact evictAll_none rest _ _ (evictOne_self st _)
      · exact ih _ h

lemma evictAll_other (files : List FPath) (st : Modules) (n : ModName)
    (h : ∀ q ∈ files, filepath_to_module_name q ≠ n) :
    evictAll st files n = st n := by
  induction files generalizing st with
  | nil => rfl
  | cons q rest ih =>
      have hq : n ≠ filepath_to_module_name q :=
        fun e => h q (List.mem_cons_self q rest) e.symm
      rw [evictAll, List.foldl_cons, ← evictAll]
      rw [ih _ fun r hr => h r (List.mem_cons_of_mem _ hr)]
      exact evictOne_other st _ n hq

lemma importModule_ok (disk : ModName → Nat) (fails : ModName → Bool)
    (st : Modules) (m : ModName) (h : fails m = false) :
    importModule disk fails st m = .ok (importOk disk st m) := by
  unfold importModule importOk
  cases hm : st m with
  | some v => rfl
  | none => simp [h]

lemma reloadUnits_nofail (disk : ModName → Nat) :
    ∀ (order : List FPath) (st : Modules),
      reloadUnits disk (fun _ => false) st order
        = (order.foldl (fun s p => importOk disk s (filepath_to_module_name p)) st,
            order.map filepath_to_module_name, none) := by
  intro order
  induction order with
  | nil => intro st; rfl
  | cons p rest ih =>
      intro st
      rw [reloadUnits, importModule_ok disk _ st _ rfl]
      dsimp only
      rw [ih]
      rfl

lemma reload_order_perm (t : ImportTracker) (enum : List FPath) :
    List.Perm (reload_order t enum) enum :=
  List.perm_insertionSort _ enum

lemma reload_order_sorted (t : ImportTracker) (enum : List FPath) :
    (reload_order t enum).Sorted
      (fun a b =>
        t.get_position (filepath_to_module_name a) ≤
          t.get_position (filepath_to_module_name b)) := by
  haveI : IsTotal FPath
      (fun a b =>
        t.get_position (filepath_to_module_name a) ≤
          t.get_position (filepath_to_module_name b)) :=
    ⟨fun a b => le_total _ _⟩
  haveI : IsTrans FPath
      (fun a b =>
        t.get_position (filepath_to_module_name a) ≤
          t.get_position (filepath_to_module_name b)) :=
    ⟨fun _ _ _ hab hbc => le_trans hab hbc⟩
  exact List.sorted_insertionSort _ enum

/-- In the code's reload order, any affected unit with a strictly smaller
position comes strictly earlier than one with a larger position. -/
lemma reload_order_strict_before (t : ImportTracker) (enum : List FPath)
    (a b : FPath) (ha : a ∈ enum) (hb : b ∈ enum)
    (hab : t.get_position (filepath_to_module_name a) <
      t.get_position (filepath_to_module_name b)) :
    ∃ i j : Fin (reload_order t enum).length,
      i < j ∧ (reload_order t enum).get i = a ∧ (reload_order t enum).get j = b := by
  have hperm := reload_order_perm t enum
  have hsorted := reload_order_sorted t enum
  obtain ⟨i, hi⟩ := List.mem_iff_get.mp (hperm.mem_iff.mpr ha)
  obtain ⟨j, hj⟩ := List.mem_iff_get.mp (hperm.mem_iff.mpr hb)
  rcases lt_trichotomy i j with h | h | h
  · exact ⟨i, j, h, hi, hj⟩
  · exfalso
    subst h
    rw [hi] at hj
    subst hj
    exact lt_irrefl _ hab
  · exfalso
    have hle := hsorted.rel_get_of_lt h
    rw [hi, hj] at hle
    exact absurd hab (not_lt.mpr hle)

/-! ## Claims -/

/-- C5: for every batch for which the Closure Provider reports an empty
invalidation set, `handle_batch` evicts nothing and re-loads nothing — the
loaded-module state is returned undisturbed — and the per-request refresh of
the root entry point (`_get_app`) is a no-op: it yields the same state and
the same handler as before the cycle. -/
theorem c5_empty_invalidation_noop (disk : ModName → Nat) (fails : ModName → Bool)
    (t : ImportTracker) (st : Modules) (relpaths : List FPath) (root : ModName) :
    handle_batch disk fails t st relpaths (ClosureOutcome.ok []) = .done st [] ∧
    (handle_batch disk fails t st relpaths (ClosureOutcome.ok [])).executedUnits = [] ∧
    getApp disk
        ((handle_batch disk fails t st relpaths (ClosureOutcome.ok [])).modulesAfter st)
        root
      = getApp disk st root :=
  ⟨rfl, rfl, rfl⟩

/-- C9: during eviction, every identifier in the invalidation set is removed
from the loaded set, identifiers outside the set are untouched, and a module
absent from the loaded set is skipped without error (the `KeyError` is caught
and the state returned unchanged); `evictAll` is total, so eviction never
fails. -/
theorem c9_evict_removes_and_skips (st : Modules) (files : List FPath)
    (p : FPath) (hp : p ∈ files) :
    evictAll st files (filepath_to_module_name p) = none ∧
    (∀ n, (∀ q ∈ files, filepath_to_module_name q ≠ n) →
      evictAll st files n = st n) ∧
    (∀ (st' : Modules) (m : ModName), st' m = none → evictOne st' m = st') := by
  refine ⟨evictAll_mem files st p hp, fun n h => evictAll_other files st n h, ?_⟩
  intro st' m h
  unfold evictOne delModule
  simp [h]

/-- C9 witness: evaluating eviction on a concrete two-module state. -/
theorem c9_witness :
    evictAll stB ["b1.py", "b2.py"] (filepath_to_module_name "b1.py") = none ∧
    evictAll stB ["b1.py", "b2.py"] "zzz" = stB "zzz" := by
  have h := c9_evict_removes_and_skips stB ["b1.py", "b2.py"] "b1.py" (by decide)
  exact ⟨h.1, h.2.1 "zzz" (by decide)⟩

/-- C2 counterexample: the claim says a raising Closure Provider always
propagates and that no unit is evicted or re-loaded in that cycle.  But
`handle_batch` catches `ValueError` (lines 154-157) and falls back to
reloading the changed files themselves: with `app` loaded and `app.py`
changed, a `ValueError` cycle completes without propagating (`failedUnit =
none`), re-executes `app` (`executedUnits = ["app"]`), and leaves `app` at the
new on-disk generation. -/
theorem c2_counterexample :
    (handle_batch oneDisk (fun _ => false) trackerNone stApp ["app.py"]
        ClosureOutcome.valueError).failedUnit = none ∧
    (handle_batch oneDisk (fun _ => false) trackerNone stApp ["app.py"]
        ClosureOutcome.valueError).executedUnits = ["app"] ∧
    (handle_batch oneDisk (fun _ => false) trackerNone stApp ["app.py"]
        ClosureOutcome.valueError).modulesAfter stApp "app" = some 1 :=
  ⟨by decide, by decide, by decide⟩

/-- C2 amended: if the Closure Provider raises `ValueError`, the cycle does
not abort — the invalidation set falls back to exactly the changed files,
which are evicted and re-loaded as if the provider had returned them; any
other exception is propagated to the caller of that cycle with no unit
evicted or re-loaded and the loaded state undisturbed, and a subsequent batch
starts from that undisturbed state, so the next change still triggers a fresh
reload attempt. -/
theorem c2_closure_failure_modes (disk : ModName → Nat) (fails : ModName → Bool)
    (t : ImportTracker) (st : Modules) (relpaths : List FPath) :
    handle_batch disk fails t st relpaths ClosureOutcome.valueError
      = handle_batch disk fails t st relpaths (ClosureOutcome.ok relpaths) ∧
    handle_batch disk fails t st relpaths ClosureOutcome.otherError
      = .closureFailed ∧
    (handle_batch disk fails t st relpaths ClosureOutcome.otherError).modulesAfter st
      = st ∧
    (handle_batch disk fails t st relpaths ClosureOutcome.otherError).executedUnits
      = [] ∧
    (∀ (relpaths' : List FPath) (o' : ClosureOutcome),
      handle_batch disk fails t
          ((handle_batch disk fails t st relpaths
              ClosureOutcome.otherError).modulesAfter st)
          relpaths' o'
        = handle_batch disk fails t st relpaths' o') :=
  ⟨rfl, rfl, rfl, rfl, fun _ _ => rfl⟩

/-- C1 counterexample: the claim says a failing unit is logged and skipped and
the remaining units are still re-executed.  But the re-execution loop (lines
179-180) has no exception handling: with invalidation set (b1, b2) in reload
order b1 then b2 and b1's re-import raising, the exception propagates
(`failedUnit = some "b1"`) and no unit completes re-execution
(`executedUnits = []`) — in particular b2, still in the reload order, is
never re-executed. -/
theorem c1_counterexample :
    reload_order trackerB ["b1.py", "b2.py"] = ["b1.py", "b2.py"] ∧
    (handle_batch oneDisk failB1 trackerB stB ["b1.py"]
        (ClosureOutcome.ok ["b1.py", "b2.py"])).failedUnit = some "b1" ∧
    (handle_batch oneDisk failB1 trackerB stB ["b1.py"]
        (ClosureOutcome.ok ["b1.py", "b2.py"])).executedUnits = [] :=
  ⟨by decide, by decide, by decide⟩

/-- C1 amended: if re-executing one unit fails (its re-load raises), the
exception propagates to the caller of the reload cycle: the units after the
failing one in the reload order are not re-executed, the units before it are
(and stay re-loaded), and the failing unit itself is left evicted — the
mutations made before the failure persist. -/
theorem c1_failure_aborts_rest (disk : ModName → Nat) (fails : ModName → Bool)
    (st : Modules) (pre : List FPath) (q : FPath) (post : List FPath)
    (hpre : ∀ p ∈ pre, fails (filepath_to_module_name p) = false)
    (hq : (pre.foldl (fun s p => importOk disk s (filepath_to_module_name p)) st)
        (filepath_to_module_name q) = none)
    (hfq : fails (filepath_to_module_name q) = true) :
    reloadUnits disk fails st (pre ++ q :: post)
      = (pre.foldl (fun s p => importOk disk s (filepath_to_module_name p)) st,
          pre.map filepath_to_module_name,
          some (filepath_to_module_name q)) := by
  induction pre generalizing st with
  | nil =>
      simp only [List.nil_append, List.foldl_nil, List.map_nil]
      rw [reloadUnits]
      simp only [List.foldl_nil] at hq
      unfold importModule
      rw [hq]
      simp [hfq]
  | cons p rest ih =>
      have hp : fails (filepath_to_module_name p) = false :=
        hpre p (List.mem_cons_self p rest)
      rw [List.cons_append, reloadUnits, importModule_ok disk fails st _ hp]
      dsimp only
      rw [ih _ (fun r hr => hpre r (List.mem_cons_of_mem _ hr)) hq]
      rfl

/-- C1 witness: the amended behavior at a concrete input — one unit reloads,
the failing unit aborts, the trailing unit is untouched. -/
theorem c1_witness :
    (reloadUnits oneDisk (fun m => decide (m = "q")) (fun _ => none)
        (["a.py"] ++ "q.py" :: ["z.py"])).2.1 = ["a"] ∧
    (reloadUnits oneDisk (fun m => decide (m = "q")) (fun _ => none)
        (["a.py"] ++ "q.py" :: ["z.py"])).2.2 = some "q" := by
  have h := c1_failure_aborts_rest oneDisk (fun m => decide (m = "q"))
    (fun _ => none) ["a.py"] "q.py" ["z.py"]
    (by decide) (by decide) (by decide)
  rw [h]
  exact ⟨by decide, by decide⟩

/-- C3 counterexample: the claim says ties in `position()` are broken by unit
identifier, making the order deterministic.  The code sorts the Python set
with `key=get_position` only, so equal-position units keep the set's
unspecified iteration order: with both units unknown to the tracker (equal
position `⊤`), the enumeration (b, a) sorts to (b, a), not to the
identifier-tie-broken (a, b) the spec words describe — and the two possible
enumerations of the same set yield different re-execution orders. -/
theorem c3_counterexample :
    reload_order trackerNone ["b.py", "a.py"]
        ≠ spec_reload_order trackerNone ["b.py", "a.py"] ∧
    reload_order trackerNone ["b.py", "a.py"]
        ≠ reload_order trackerNone ["a.py", "b.py"] :=
  ⟨by decide, by decide⟩

/-- C3 amended: the re-execution order is the invalidation set stably sorted
by `position()` ascending — a permutation of the set, non-decreasing in
position, and any unit with strictly smaller position completes re-execution
before one with larger position starts; ties between equal positions follow
the set's (unspecified) iteration order rather than the unit identifier. -/
theorem c3_reload_order_sorted_by_position (t : ImportTracker)
    (enum : List FPath) :
    List.Perm (reload_order t enum) enum ∧
    (reload_order t enum).Sorted
      (fun a b =>
        t.get_position (filepath_to_module_name a) ≤
          t.get_position (filepath_to_module_name b)) ∧
    (∀ a b, a ∈ enum → b ∈ enum →
      t.get_position (filepath_to_module_name a) <
          t.get_position (filepath_to_module_name b) →
      ∃ i j : Fin (reload_order t enum).length,
        i < j ∧ (reload_order t enum).get i = a ∧
          (reload_order t enum).get j = b) :=
  ⟨reload_order_perm t enum, reload_order_sorted t enum,
    fun a b ha hb hab => reload_order_strict_before t enum a b ha hb hab⟩

/-- C3 witness: on a concrete mixed-position set, the lower-position unit
occupies an earlier slot of the reload order. -/
theorem c3_witness :
    ∃ i j : Fin (reload_order trackerB ["b2.py", "b1.py"]).length,
      i < j ∧ (reload_order trackerB ["b2.py", "b1.py"]).get i = "b1.py" ∧
        (reload_order trackerB ["b2.py", "b1.py"]).get j = "b2.py" :=
  (c3_reload_order_sorted_by_position trackerB ["b2.py", "b1.py"]).2.2
    "b1.py" "b2.py" (by decide) (by decide) (by decide)

/-- C6: `get_position` returns the sentinel `⊤` for any identifier never
recorded at startup, which is strictly greater than the recorded position of
every identifier the bootstrap saw, and therefore in any invalidation set
mixing both kinds every startup-recorded unit occupies an earlier slot of the
reload order than every never-seen unit. -/
theorem c6_unknown_sorts_last (t : ImportTracker) (u k : ModName) (n : Nat)
    (hu : lookupPos t.original_import_map u = none)
    (hk : lookupPos t.original_import_map k = some n) :
    t.get_position u = ⊤ ∧
    t.get_position k < t.get_position u ∧
    (∀ (enum : List FPath) (pk pu : FPath), pk ∈ enum → pu ∈ enum →
      filepath_to_module_name pk = k → filepath_to_module_name pu = u →
      ∃ i j : Fin (reload_order t enum).length,
        i < j ∧ (reload_order t enum).get i = pk ∧
          (reload_order t enum).get j = pu) := by
  have h1 : t.get_position u = ⊤ := by
    unfold ImportTracker.get_position
    rw [hu]
  have h2 : t.get_position k = (n : WithTop Nat) := by
    unfold ImportTracker.get_position
    rw [hk]
  have hlt : t.get_position k < t.get_position u := by
    rw [h1, h2]
    exact WithTop.coe_lt_top n
  refine ⟨h1, hlt, ?_⟩
  intro enum pk pu hpk hpu hfk hfu
  apply reload_order_strict_before t enum pk pu hpk hpu
  rw [hfk, hfu]
  exact hlt

/-- C6 witness: with `b1` recorded at startup and `mystery` never seen, the
sentinel dominates and the recorded unit reloads first. -/
theorem c6_witness :
    trackerB.get_position "mystery" = ⊤ ∧
    trackerB.get_position "b1" < trackerB.get_position "mystery" ∧
    ∃ i j : Fin (reload_order trackerB ["mystery.py", "b1.py"]).length,
      i < j ∧ (reload_order trackerB ["mystery.py", "b1.py"]).get i = "b1.py" ∧
        (reload_order trackerB ["mystery.py", "b1.py"]).get j = "mystery.py" := by
  have h := c6_unknown_sorts_last trackerB "mystery" "b1" 1 (by decide) (by decide)
  exact ⟨h.1, h.2.1,
    h.2.2 ["mystery.py", "b1.py"] "b1.py" "mystery.py" (by decide) (by decide)
      (by decide) (by decide)⟩

lemma lookupPos_append (l1 l2 : List (ModName × Nat)) (x : ModName) :
    lookupPos (l1 ++ l2) x =
      match lookupPos l1 x with
      | some v => some v
      | none => lookupPos l2 x := by
  induction l1 with
  | nil => rfl
  | cons e rest ih =>
      obtain ⟨k, v⟩ := e
      by_cases h : k = x
      · simp [lookupPos, h]
      · simp [lookupPos, h, ih]

lemma record_lookup_ne (t : ImportTracker) (name x : ModName) (h : name ≠ x) :
    lookupPos (t.record name).original_import_map x
      = lookupPos t.original_import_map x := by
  unfold ImportTracker.record
  split
  · rfl
  · split
    · rfl
    · rw [lookupPos_append]
      cases hx : lookupPos t.original_import_map x with
      | some v => rfl
      | none => simp [lookupPos, h]

lemma record_lookup_some (t : ImportTracker) (name x : ModName) (v : Nat)
    (h : lookupPos t.original_import_map x = some v) :
    lookupPos (t.record name).original_import_map x = some v := by
  unfold ImportTracker.record
  split
  · exact h
  · split
    · exact h
    · rw [lookupPos_append, h]

lemma foldl_record_lookup_none (l : List ModName) (t : ImportTracker)
    (x : ModName) (hx : lookupPos t.original_import_map x = none)
    (hl : x ∉ l) :
    lookupPos (l.foldl ImportTracker.record t).original_import_map x = none := by
  induction l generalizing t with
  | nil => exact hx
  | cons m rest ih =>
      have h1 : m ≠ x := fun e => hl (List.mem_cons.mpr (Or.inl e.symm))
      have h2 : x ∉ rest := fun e => hl (List.mem_cons.mpr (Or.inr e))
      exact ih _ ((record_lookup_ne t m x h1).trans hx) h2

lemma foldl_record_lookup_some (l : List ModName) (t : ImportTracker)
    (x : ModName) (v : Nat)
    (hx : lookupPos t.original_import_map x = some v) :
    lookupPos (l.foldl ImportTracker.record t).original_import_map x = some v := by
  induction l generalizing t with
  | nil => exact hx
  | cons m rest ih => exact ih _ (record_lookup_some t m x v hx)

lemma record_order_mem (t : ImportTracker) (name x : ModName)
    (h : x ∈ t.original_import_order) :
    x ∈ (t.record name).original_import_order := by
  unfold ImportTracker.record
  split
  · exact h
  · split
    · exact h
    · exact List.mem_append_left _ h

lemma foldl_record_order_mem (l : List ModName) (t : ImportTracker)
    (x : ModName) (h : x ∈ t.original_import_order) :
    x ∈ (l.foldl ImportTracker.record t).original_import_order := by
  induction l generalizing t with
  | nil => exact h
  | cons m rest ih => exact ih _ (record_order_mem t m x h)

/-- C10: the root module's identifier is seeded into the import-order list
but — as long as the bootstrap import sequence never re-imports the root
module itself — never into the position map, so `get_position(root)` is the
sentinel `⊤` rather than index 0; the first unit the import hook records gets
position 1 (not 0); and whenever the root module appears in an invalidation
set, every unit recorded during the bootstrap occupies an earlier slot of the
reload order than the root module. -/
theorem c10_root_position_sentinel (root : ModName) (imports : List ModName)
    (hroot : root ∉ imports) :
    root ∈ (bootstrapTracker root imports).original_import_order ∧
    lookupPos (bootstrapTracker root imports).original_import_map root = none ∧
    (bootstrapTracker root imports).get_position root = ⊤ ∧
    (∀ m rest, imports = m :: rest → underscored m = false →
      (bootstrapTracker root imports).get_position m = ((1 : Nat) : WithTop Nat)) ∧
    (∀ (enum : List FPath) (proot pk : FPath) (i : Nat),
      proot ∈ enum → pk ∈ enum →
      filepath_to_module_name proot = root →
      lookupPos (bootstrapTracker root imports).original_import_map
          (filepath_to_module_name pk) = some i →
      ∃ a b : Fin (reload_order (bootstrapTracker root imports) enum).length,
        a < b ∧
          (reload_order (bootstrapTracker root imports) enum).get a = pk ∧
          (reload_order (bootstrapTracker root imports) enum).get b = proot) := by
  have hnone :
      lookupPos (bootstrapTracker root imports).original_import_map root = none :=
    foldl_record_lookup_none imports _ root rfl hroot
  have htop : (bootstrapTracker root imports).get_position root = ⊤ := by
    unfold ImportTracker.get_position
    rw [hnone]
  refine ⟨?_, hnone, htop, ?_, ?_⟩
  · exact foldl_record_order_mem imports _ root (List.mem_singleton_self root)
  · intro m rest heq hm
    subst heq
    have h1 :
        lookupPos
            ((ImportTracker.record
                { original_import_order := [root], original_import_map := [] }
                m).original_import_map) m = some 1 := by
      simp [ImportTracker.record, hm, lookupPos]
    have h2 :
        lookupPos (bootstrapTracker root (m :: rest)).original_import_map m
          = some 1 :=
      foldl_record_lookup_some rest _ m 1 h1
    unfold ImportTracker.get_position
    rw [h2]
  · intro enum proot pk i hproot hpk hfroot hlk
    apply reload_order_strict_before _ enum pk proot hpk hproot
    have hk : (bootstrapTracker root imports).get_position
        (filepath_to_module_name pk) = (i : WithTop Nat) := by
      unfold ImportTracker.get_position
      rw [hlk]
    rw [hk, hfroot, htop]
    exact WithTop.coe_lt_top i

/-- C10 witness: a concrete bootstrap with root `app` and recorded imports
`m1`, `m2`. -/
theorem c10_witness :
    (bootstrapTracker "app" ["m1", "m2"]).get_position "app" = ⊤ ∧
    (bootstrapTracker "app" ["m1", "m2"]).get_position "m1"
      = ((1 : Nat) : WithTop Nat) ∧
    ∃ a b : Fin (reload_order (bootstrapTracker "app" ["m1", "m2"])
        ["app.py", "m1.py"]).length,
      a < b ∧
        (reload_order (bootstrapTracker "app" ["m1", "m2"])
          ["app.py", "m1.py"]).get a = "m1.py" ∧
        (reload_order (bootstrapTracker "app" ["m1", "m2"])
          ["app.py", "m1.py"]).get b = "app.py" := by
  have h := c10_root_position_sentinel "app" ["m1", "m2"] (by decide)
  exact ⟨h.2.2.1, h.2.2.2.1 "m1" ["m2"] rfl (by decide),
    h.2.2.2.2 ["app.py", "m1.py"] "app.py" "m1.py" 1 (by decide) (by decide)
      (by decide) (by decide)⟩

/-- C7: on every call, `ReloadableWSGI.__call__` produces a balanced
acquire/release trace of the ReloadLock, computes its response by resolving
the entry point fresh from the current `sys.modules` (`_get_app` on the state
passed in, never a cached handler), converts a raising route handler into the
structured 500 response instead of propagating it, and — for an arbitrary
delegate body that may raise — the `with self.lock:` block still releases the
lock on the raising exit path. -/
theorem c7_serving_facade (disk : ModName → Nat) (appOf : Nat → WSGIHandlers)
    (st : Modules) (root : ModName) (req : Request) :
    (reloadableCall disk appOf st root req).1
      = [LockEv.acquire, LockEv.release] ∧
    (reloadableCall disk appOf st root req).2.2
      = wsgiCall (appOf (getApp disk st root).2) req ∧
    (∀ e, routeOf (appOf (getApp disk st root).2) req.path req = .error e →
      (reloadableCall disk appOf st root req).2.2 = errorResponse e) ∧
    (∀ body : Except PyErr Response,
      (withLock body).1 = [LockEv.acquire, LockEv.release]) := by
  refine ⟨rfl, rfl, ?_, ?_⟩
  · intro e he
    show wsgiCall (appOf (getApp disk st root).2) req = errorResponse e
    unfold wsgiCall
    rw [he]
  · intro body
    cases body <;> rfl

/-- C7 witness: a raising root handler yields the structured 500 response,
with the lock still released. -/
theorem c7_witness :
    (reloadableCall oneDisk (fun _ => raisingHandlers) stApp "app"
        { path := "/" }).2.2 = errorResponse "boom" ∧
    (reloadableCall oneDisk (fun _ => raisingHandlers) stApp "app"
        { path := "/" }).1 = [LockEv.acquire, LockEv.release] := by
  have h := c7_serving_facade oneDisk (fun _ => raisingHandlers) stApp "app"
    { path := "/" }
  exact ⟨h.2.2.1 "boom" rfl, h.1⟩

/-- C4: evaluating the code at the failing interleaving.  `notify("a.py")`
arms the timer; the timer fires and `process_batch` hands the live batch to
the callback (`fireBegin`); while the callback is still running,
`notify("b.py")` adds `b.py` to the same live set (`BatchDebounceTimer` takes
no lock of its own); the callback returns and `process_batch` executes
`self.batch.clear()` (`fireEnd`).  Afterwards the only flushed batch is
`["a.py"]` and the pending batch is empty: the notified path `b.py` was
neither delivered nor retained, contradicting the claim that no notified path
is lost even when a notify races with the timer firing. -/
theorem c4_race_loses_notified_path :
    (raceRun { batch := [], delivered := [] }
        [RaceEv.notify "a.py", RaceEv.fireBegin, RaceEv.notify "b.py",
          RaceEv.fireEnd]).delivered = [["a.py"]] ∧
    (raceRun { batch := [], delivered := [] }
        [RaceEv.notify "a.py", RaceEv.fireBegin, RaceEv.notify "b.py",
          RaceEv.fireEnd]).batch = [] ∧
    (∀ B ∈ (raceRun { batch := [], delivered := [] }
        [RaceEv.notify "a.py", RaceEv.fireBegin, RaceEv.notify "b.py",
          RaceEv.fireEnd]).delivered, "b.py" ∉ B) :=
  ⟨by decide, by decide, by decide⟩

lemma mem_addPath (B : List FPath) (p q : FPath) :
    q ∈ addPath B p ↔ q ∈ B ∨ q = p := by
  unfold addPath
  by_cases h : p ∈ B
  · simp only [if_pos h]
    constructor
    · exact Or.inl
    · rintro (hq | rfl)
      · exact hq
      · exact h
  · simp [if_neg h]

lemma addPath_ne_nil (B : List FPath) (p : FPath) : addPath B p ≠ [] := by
  unfold addPath
  by_cases h : p ∈ B
  · simp only [if_pos h]
    rintro rfl
    cases h
  · simp [if_neg h]

lemma nodup_addPath (B : List FPath) (p : FPath) (h : B.Nodup) :
    (addPath B p).Nodup := by
  unfold addPath
  by_cases hp : p ∈ B
  · simpa [if_pos hp]
  · simp only [if_neg hp]
    rw [List.nodup_append]
    exact ⟨h, List.nodup_singleton p, by simpa [List.disjoint_singleton]⟩

lemma foldl_addPath_mem (l : List FPath) (B : List FPath) (q : FPath) :
    q ∈ l.foldl addPath B ↔ q ∈ B ∨ q ∈ l := by
  induction l generalizing B with
  | nil => simp
  | cons p rest ih =>
      rw [List.foldl_cons, ih, mem_addPath]
      simp only [List.mem_cons]
      tauto

lemma foldl_addPath_nodup (l : List FPath) (B : List FPath) (h : B.Nodup) :
    (l.foldl addPath B).Nodup := by
  induction l generalizing B with
  | nil => exact h
  | cons p rest ih => exact ih _ (nodup_addPath B p h)

lemma foldl_addPath_ne_nil (l : List FPath) (B : List FPath) (h : B ≠ []) :
    l.foldl addPath B ≠ [] := by
  induction l generalizing B with
  | nil => exact h
  | cons p rest ih => exact ih _ (addPath_ne_nil B p)

/-- While every notification arrives before the armed timer's deadline, the
debouncer only accumulates: nothing is flushed, the batch is the fold of the
notified paths, and a timer is armed for the last notification. -/
lemma runNotifies_quiet (evs : List (Nat × FPath)) :
    ∀ (d : BatchDebounceTimer) (tprev : Nat),
      d.deadline = some (tprev + d.timeout) →
      List.Chain (fun a b => b < a + d.timeout) tprev (evs.map Prod.fst) →
      (runNotifies d evs).timeout = d.timeout ∧
      (runNotifies d evs).flushed = d.flushed ∧
      (runNotifies d evs).batch
        = evs.foldl (fun B tp => addPath B tp.2) d.batch ∧
      ∃ tl, (runNotifies d evs).deadline = some (tl + d.timeout) := by
  induction evs with
  | nil => exact fun d tprev hd _ => ⟨rfl, rfl, rfl, tprev, hd⟩
  | cons e rest ih =>
      obtain ⟨now, p⟩ := e
      intro d tprev hd hch
      rw [List.map_cons, List.chain_cons] at hch
      obtain ⟨h1, h2⟩ := hch
      have hf : fire_due d now = d := by
        unfold fire_due
        rw [hd]
        simp [not_le.mpr h1]
      rw [runNotifies, hf]
      exact ih (add_to_batch d now p) now rfl h2

/-- For a sequential burst — every `notify` arriving before the armed timer's
deadline and the timer then firing undisturbed — exactly one batch is
flushed, containing the set-union of all notified paths with duplicates
removed.  (The race theorem for C4 shows this fails once a notify interleaves
with the non-atomic fire.) -/
theorem debounce_coalesces_sequentially (W t0 : Nat) (p0 : FPath)
    (evs : List (Nat × FPath))
    (hch : List.Chain (fun a b => b < a + W) t0 (evs.map Prod.fst)) :
    ∃ B, (settleTimer (runNotifies (initTimer W) ((t0, p0) :: evs))).flushed = [B]
      ∧ B.Nodup ∧ (∀ q, q ∈ B ↔ q = p0 ∨ q ∈ evs.map Prod.snd) := by
  obtain ⟨htm, hfl, hb, tl, hdl⟩ :=
    runNotifies_quiet evs (add_to_batch (initTimer W) t0 p0) t0 rfl hch
  have hbatch :
      (runNotifies (add_to_batch (initTimer W) t0 p0) evs).batch
        = (evs.map Prod.snd).foldl addPath [p0] := by
    rw [hb, List.foldl_map]
    rfl
  have hne : (runNotifies (add_to_batch (initTimer W) t0 p0) evs).batch ≠ [] := by
    rw [hbatch]
    exact foldl_addPath_ne_nil _ _ (by simp)
  have hemp :
      (runNotifies (add_to_batch (initTimer W) t0 p0) evs).batch.isEmpty = false := by
    cases hx : (runNotifies (add_to_batch (initTimer W) t0 p0) evs).batch with
    | nil => exact absurd hx hne
    | cons a l => rfl
  refine ⟨(runNotifies (add_to_batch (initTimer W) t0 p0) evs).batch, ?_, ?_, ?_⟩
  · show (settleTimer (runNotifies (add_to_batch (initTimer W) t0 p0) evs)).flushed = _
    unfold settleTimer
    rw [hdl]
    unfold fire_due
    rw [hdl]
    simp only [le_refl, if_true, hemp, Bool.false_eq_true, if_false]
    rw [hfl]
    rfl
  · rw [hbatch]
    exact foldl_addPath_nodup _ _ (List.nodup_singleton p0)
  · intro q
    rw [hbatch, foldl_addPath_mem]
    simp

lemma applyUpto_succ (muts : List (Modules → Modules)) (i : Nat)
    (h : i < muts.length) (mem0 : Modules) :
    applyUpto muts (i + 1) mem0 = (muts.get ⟨i, h⟩) (applyUpto muts i mem0) := by
  unfold applyUpto
  rw [List.take_succ, List.foldl_append, List.getElem?_eq_getElem h]
  rfl

lemma applyUpto_full (muts : List (Modules → Modules)) (mem0 : Modules) :
    applyUpto muts muts.length mem0 = muts.foldl (fun s f => f s) mem0 := by
  unfold applyUpto
  rw [List.take_length]

lemma cinv_init (muts : List (Modules → Modules)) (mem0 : Modules) :
    CInv muts mem0 (initC mem0) := by
  refine ⟨by simp [initC], by simp [initC], ?_, ?_, ?_, Or.inl rfl⟩
  · rintro ⟨h1, _⟩
    simp [initC] at h1
  · rintro ⟨h1, _⟩
    simp [initC] at h1
  · simp [initC, applyUpto]

lemma cinv_step (muts : List (Modules → Modules)) (mem0 : Modules)
    (s s' : CState) (hinv : CInv muts mem0 s) (hstep : CStep muts s s') :
    CInv muts mem0 s' := by
  obtain ⟨hr2, hq3, hlr, hlq, hmem, hobs⟩ := hinv
  cases hstep with
  | rAcquire h hp =>
      refine ⟨?_, ?_, ?_, ?_, ?_, ?_⟩ <;> dsimp only
      · omega
      · exact hq3
      · intro _
        rfl
      · intro hq
        have h2 := hlq hq
        rw [h] at h2
        cases h2
      · rw [hmem, hp]
      · exact hobs
  | rMut i hi hp =>
      refine ⟨?_, ?_, ?_, ?_, ?_, ?_⟩ <;> dsimp only
      · omega
      · exact hq3
      · intro _
        exact hlr ⟨by omega, by omega⟩
      · intro hq
        have ha := hlr ⟨by omega, by omega⟩
        have hb := hlq hq
        rw [ha] at hb
        cases hb
      · rw [hmem, hp]
        have e1 : min (i + 1 - 1) muts.length = i := by omega
        have e2 : min (i + 2 - 1) muts.length = i + 1 := by omega
        rw [e1, e2, applyUpto_succ muts i hi]
      · exact hobs
  | rRelease hp =>
      refine ⟨?_, ?_, ?_, ?_, ?_, ?_⟩ <;> dsimp only
      · omega
      · exact hq3
      · rintro ⟨_, h2⟩
        exfalso
        omega
      · intro hq
        have ha := hlr ⟨by omega, by omega⟩
        have hb := hlq hq
        rw [ha] at hb
        cases hb
      · rw [hmem, hp]
        have e1 : min (muts.length + 1 - 1) muts.length = muts.length := by omega
        have e2 : min (muts.length + 2 - 1) muts.length = muts.length := by omega
        rw [e1, e2]
      · exact hobs
  | qAcquire h hp =>
      refine ⟨?_, ?_, ?_, ?_, ?_, ?_⟩ <;> dsimp only
      · exact hr2
      · omega
      · intro hr
        have h2 := hlr hr
        rw [h] at h2
        cases h2
      · intro _
        rfl
      · exact hmem
      · exact hobs
  | qObserve hp =>
      refine ⟨?_, ?_, ?_, ?_, ?_, ?_⟩ <;> dsimp only
      · exact hr2
      · omega
      · intro hr
        exact hlr hr
      · intro _
        exact hlq ⟨by omega, by omega⟩
      · exact hmem
      · have hreq := hlq ⟨by omega, by omega⟩
        have hnotr : ¬ (1 ≤ s.rpc ∧ s.rpc ≤ muts.length + 1) := by
          intro hr
          have ha := hlr hr
          rw [ha] at hreq
          cases hreq
        have hcases : s.rpc = 0 ∨ s.rpc = muts.length + 2 := by omega
        rcases hcases with h0 | h0
        · refine Or.inr (Or.inl ?_)
          rw [hmem, h0]
          simp [applyUpto]
        · refine Or.inr (Or.inr ?_)
          rw [hmem, h0]
          have e1 : min (muts.length + 2 - 1) muts.length = muts.length := by
            omega
          rw [e1]
  | qRelease hp =>
      refine ⟨?_, ?_, ?_, ?_, ?_, ?_⟩ <;> dsimp only
      · exact hr2
      · omega
      · intro hr
        have ha := hlr hr
        have hb := hlq ⟨by omega, by omega⟩
        rw [ha] at hb
        cases hb
      · rintro ⟨_, h2⟩
        exfalso
        omega
      · exact hmem
      · exact hobs

lemma cinv_reach (muts : List (Modules → Modules)) (mem0 : Modules)
    (s : CState) (h : CReach muts mem0 s) : CInv muts mem0 s := by
  induction h with
  | refl => exact cinv_init muts mem0
  | tail hab hbc ih => exact cinv_step muts mem0 _ _ ih hbc

lemma handle_batch_ok_nodup (disk : ModName → Nat) (fails : ModName → Bool)
    (t : ImportTracker) (st : Modules) (relpaths : List FPath)
    (affected : List FPath) (hnd : affected.Nodup) :
    handle_batch disk fails t st relpaths (ClosureOutcome.ok affected)
      = if affected.isEmpty then .done st []
        else
          let st1 := evictAll st affected
          let r := reloadUnits disk fails st1 (reload_order t affected)
          match r.2.2 with
          | some f => .unitFailed r.1 r.2.1 f
          | none => .done r.1 r.2.1 := by
  unfold handle_batch computeAffected
  dsimp only
  rw [List.dedup_eq_self.mpr hnd]

lemma cycleSteps_final (disk : ModName → Nat) (t : ImportTracker)
    (affected relpaths : List FPath) (mem0 : Modules) (hnd : affected.Nodup) :
    applyUpto (cycleSteps disk t affected) (cycleSteps disk t affected).length
        mem0
      = (handle_batch disk (fun _ => false) t mem0 relpaths
          (ClosureOutcome.ok affected)).modulesAfter mem0 := by
  rw [applyUpto_full, handle_batch_ok_nodup disk _ t mem0 relpaths affected hnd]
  by_cases he : affected.isEmpty
  · have hnil : affected = [] := List.isEmpty_iff.mp he
    subst hnil
    rw [if_pos he]
    rfl
  · rw [if_neg he]
    dsimp only
    rw [reloadUnits_nofail]
    dsimp only [BatchOutcome.modulesAfter]
    unfold cycleSteps
    rw [List.foldl_append, List.foldl_map, List.foldl_map]
    rfl

/-- C8: in every state reachable by interleaving one reload cycle (its
evictions and re-imports as `cycleSteps`) with one concurrent request, at
most one of the two holds the ReloadLock — the reload's critical section and
the request's never overlap — and whatever `sys.modules` the request observed
through `_get_app` is either the pre-reload state or the state `handle_batch`
leaves behind, never a half-evicted or half-reexecuted intermediate; once the
reload has released the lock, the memory is exactly the post-cycle state, so
a request that was blocked proceeds with the post-reload entry point. -/
theorem c8_lock_serializes_reload (disk : ModName → Nat) (t : ImportTracker)
    (affected relpaths : List FPath) (hnd : affected.Nodup) (mem0 : Modules)
    (s : CState) (h : CReach (cycleSteps disk t affected) mem0 s) :
    ¬ (inReloadCritical (cycleSteps disk t affected) s ∧ inRequestCritical s) ∧
    (∀ m, s.observed = some m →
      m = mem0 ∨
        m = (handle_batch disk (fun _ => false) t mem0 relpaths
            (ClosureOutcome.ok affected)).modulesAfter mem0) ∧
    (s.rpc = (cycleSteps disk t affected).length + 2 →
      s.mem = (handle_batch disk (fun _ => false) t mem0 relpaths
          (ClosureOutcome.ok affected)).modulesAfter mem0) := by
  obtain ⟨hr2, hq3, hlr, hlq, hmem, hobs⟩ := cinv_reach _ _ _ h
  refine ⟨?_, ?_, ?_⟩
  · rintro ⟨hrc, hqc⟩
    have h1 := hlr hrc
    have h2 := hlq hqc
    rw [h1] at h2
    cases h2
  · intro m hm
    rcases hobs with h0 | h0 | h0
    · rw [hm] at h0
      cases h0
    · rw [hm] at h0
      exact Or.inl (Option.some.inj h0)
    · rw [cycleSteps_final disk t affected relpaths mem0 hnd] at h0
      rw [hm] at h0
      exact Or.inr (Option.some.inj h0)
  · intro hrpc
    rw [hmem, hrpc]
    have e1 : min ((cycleSteps disk t affected).length + 2 - 1)
        (cycleSteps disk t affected).length = (cycleSteps disk t affected).length := by
      omega
    rw [e1, cycleSteps_final disk t affected relpaths mem0 hnd]

/-- C8 witness: the mutual-exclusion conclusion at the (trivially reachable)
initial state of a concrete cycle. -/
theorem c8_witness :
    ¬ (inReloadCritical (cycleSteps oneDisk trackerB ["b1.py"]) (initC stB) ∧
        inRequestCritical (initC stB)) :=
  (c8_lock_serializes_reload oneDisk trackerB ["b1.py"] ["b1.py"] (by decide)
    stB (initC stB) Relation.ReflTransGen.refl).1
